import Mathlib

/-!
# Verification of the Hanu-Times timetable generation engine

A shallow embedding of the core scheduling engine (the `TimetableGenerator`
class of the backend) and proofs of the specified properties.

Modelling conventions, fixed once for the whole file:

* Times of day are canonical zero-padded `HH:MM` strings in the source; their
  lexicographic order coincides with the order of `hour*60+minute`, so a time
  is embedded as its minute count (an `Int`, since durations are computed by
  subtraction and may be negative for malformed input).
* Fields that the source may find `undefined`/`null` on a record (a session
  missing its day, times or type; a constraint with nullable day/times) are
  embedded as `Option` values, `none` standing for `null`/`undefined`.
* A JavaScript relational comparison `a < b` between a time string and
  `null`/`undefined` converts the string to `NaN`, so every such mixed
  comparison is `false`; `jsLtTime`/`jsGtTime` below encode exactly that.
* A thrown JavaScript exception (e.g. `TypeError` from dereferencing
  `undefined`) is modelled by `Except.error` with the message text; all
  engine operations run in `Except String`.
* `Array.prototype.sort` is a stable sort (ES2019); with at most one element
  no comparator call is made.  It is modelled by a stable insertion sort; when
  the comparator throws, both the engine's sort and the model propagate the
  exception (with two or more elements every element takes part in at least
  one comparison in both).
* The per-day `totalHours` accumulator (`duration / 60` in floating point) is
  embedded as a `Rat`; the scores computed here stay within exact binary
  fractions for half-hour-granularity inputs, so this is faithful on the
  engine's slot grid.
* The result fields `suggestions`, `stats` and `generatedAt` (derived,
  presentation-only outputs) and the orchestrator's unused `placedSessions`
  array are not carried by the embedded result; no verified property reads
  them.
-/

/-- An input session record (`sessions` table row) as the engine reads it.
`none` in a field models a record whose field is `null`/`undefined`. -/
structure Session where
  id : Nat
  course_id : Nat
  type : Option String
  day_of_week : Option Int
  start_time : Option Int
  end_time : Option Int
deriving DecidableEq

/-- A course record; only `id` and `priority` are read by the engine. -/
structure Course where
  id : Nat
  priority : Int
deriving DecidableEq

/-- A constraint record; `day_of_week`, `start_time`, `end_time` are nullable. -/
structure Constraint where
  type : String
  day_of_week : Option Int
  start_time : Option Int
  end_time : Option Int
deriving DecidableEq

/-- A placed session as pushed into a day bucket by `placeSession`: the spread
`{...session}` with `start_time`/`end_time` overwritten by the placement and
`duration`/flags added.  The original record is kept whole in `session` (the
source flattens it; the overwritten times live in the fields below). -/
structure Placed where
  session : Session
  start_time : Int
  end_time : Int
  duration : Int
  isAlternative : Bool
  isDifferentDay : Bool
deriving DecidableEq

/-- One day bucket of the schedule object (`dayName` is presentation only and
not carried). -/
structure DayBucket where
  sessions : List Placed
  totalHours : Rat
deriving DecidableEq

/-- A conflict entry: a session that could not be placed. -/
structure Conflict where
  session : Session
  reason : String
  suggestions : List String
deriving DecidableEq

/-- The successful return value of `findBestPlacement` (its `success: true`
shape); times are `Option` because the preferred-slot branch copies the raw
session fields, which may be `undefined`. -/
structure Placement where
  dayOfWeek : Option Int
  startTime : Option Int
  endTime : Option Int
  isAlternative : Bool
  isDifferentDay : Bool
deriving DecidableEq

/-- The engine's composite result (suggestions/stats omitted, see header). -/
structure GenerationResult where
  schedule : List DayBucket
  conflicts : List Conflict
  score : Rat
deriving DecidableEq

/-- JavaScript `a < b` on two nullable time values: comparing a canonical
`HH:MM` string with `null`/`undefined` coerces the string to `NaN`, so the
comparison is true only when both sides are present. -/
def jsLtTime : Option Int → Option Int → Bool
  | some a, some b => a < b
  | _, _ => false

/-- JavaScript `a > b` on two nullable time values (see `jsLtTime`). -/
def jsGtTime : Option Int → Option Int → Bool
  | some a, some b => b < a
  | _, _ => false

/-- `timesOverlap(start1, end1, start2, end2)`: the half-open interval test
`start1 < end2 && end1 > start2`. -/
def timesOverlap (start1 end1 start2 end2 : Option Int) : Bool :=
  jsLtTime start1 end2 && jsGtTime end1 start2

/-- `calculateDuration(startTime, endTime)`: parses both times and returns
`end - start` in minutes; calling `.split` on `undefined` throws. -/
def calculateDuration : Option Int → Option Int → Except String Int
  | some s, some e => .ok (e - s)
  | _, _ => .error "TypeError: cannot read split of undefined"

/-- `addMinutes(time, minutes)`: `null` when the result falls at or after
21:00 (minute 1260), else the shifted time. -/
def addMinutes (time minutes : Int) : Option Int :=
  if 1260 ≤ time + minutes then none else some (time + minutes)

/-- `generateTimeSlots()`: half-hour-aligned times for hours 8..20
(26 entries, `08:00` .. `20:30`). -/
def timeSlots : List Int :=
  (List.range 13).flatMap fun k => [480 + 60 * (k : Int), 510 + 60 * (k : Int)]

/-- The slots `findAlternativeSlots` actually scans: its loop runs
`i < timeSlots.length - 1`, so the final `20:30` entry is never tried. -/
def candidateSlots : List Int := timeSlots.take (timeSlots.length - 1)

/-- `createEmptySchedule()`: seven empty day buckets (days 0..6). -/
def createEmptySchedule : List DayBucket := List.replicate 7 ⟨[], 0⟩

/-- Indexing `schedule[dayOfWeek]`: accessing a property of the `undefined`
bucket throws when the day is missing or outside the bucket range. -/
def dayIndex (sched : List DayBucket) : Option Int → Except String Nat
  | some d =>
      if 0 ≤ d ∧ d.toNat < sched.length then .ok d.toNat
      else .error "TypeError: cannot read sessions of undefined"
  | none => .error "TypeError: cannot read sessions of undefined"

/-- `isTimeSlotAvailable(dayOfWeek, startTime, endTime, schedule, constraints)`:
false when an existing placement on the day overlaps, or when a matching-day
`unavailable` constraint overlaps.  (When control reaches the constraint loop
the day is a valid index, so the strict-equality day comparison only ever sees
present values.) -/
def isTimeSlotAvailable (day startTime endTime : Option Int)
    (sched : List DayBucket) (constraints : List Constraint) :
    Except String Bool := do
  let i ← dayIndex sched day
  let bucket := sched.getD i ⟨[], 0⟩
  if bucket.sessions.any fun ex =>
      timesOverlap startTime endTime (some ex.start_time) (some ex.end_time) then
    return false
  else if constraints.any fun c =>
      (c.day_of_week == none || c.day_of_week == day) &&
      c.type == "unavailable" &&
      timesOverlap startTime endTime c.start_time c.end_time then
    return false
  else
    return true

/-- The slot scan of `findAlternativeSlots`: for each candidate start, a
non-null `addMinutes` end is tested for availability and collected (the `&&`
short-circuits, so a null end is never tested). -/
def scanSlots (day : Option Int) (dur : Int) (sched : List DayBucket)
    (constraints : List Constraint) (acc : List (Int × Int)) :
    List Int → Except String (List (Int × Int))
  | [] => .ok acc
  | t :: ts =>
      match addMinutes t dur with
      | none => scanSlots day dur sched constraints acc ts
      | some e => do
          let av ← isTimeSlotAvailable day (some t) (some e) sched constraints
          scanSlots day dur sched constraints (if av then acc ++ [(t, e)] else acc) ts

/-- `findAlternativeSlots(session, dayOfWeek, schedule, constraints)`. -/
def findAlternativeSlots (session : Session) (day : Option Int)
    (sched : List DayBucket) (constraints : List Constraint) :
    Except String (List (Int × Int)) := do
  let dur ← calculateDuration session.start_time session.end_time
  scanSlots day dur sched constraints [] candidateSlots

/-- The cross-day loop of `findBestPlacement`: days Monday(1)..Friday(5) in
order, skipping the preferred day. -/
def crossDaySearch (session : Session) (sched : List DayBucket)
    (constraints : List Constraint) : List Int → Except String (Option Placement)
  | [] => .ok none
  | d :: ds =>
      if session.day_of_week == some d then
        crossDaySearch session sched constraints ds
      else do
        let alts ← findAlternativeSlots session (some d) sched constraints
        match alts with
        | (st, en) :: _ => .ok (some ⟨some d, some st, some en, false, true⟩)
        | [] => crossDaySearch session sched constraints ds

/-- `findBestPlacement(session, schedule, constraints, placedSessions)`:
preferred slot, then same-day alternatives, then other weekdays; `none`
models the `success: false` shape (whose fixed reason/suggestion strings are
attached at the conflict-push site in `placeAll`). -/
def findBestPlacement (session : Session) (sched : List DayBucket)
    (constraints : List Constraint) : Except String (Option Placement) := do
  let avail ← isTimeSlotAvailable session.day_of_week session.start_time
      session.end_time sched constraints
  if avail then
    return some ⟨session.day_of_week, session.start_time, session.end_time, false, false⟩
  else
    let alts ← findAlternativeSlots session session.day_of_week sched constraints
    match alts with
    | (st, en) :: _ => return some ⟨session.day_of_week, some st, some en, true, false⟩
    | [] => crossDaySearch session sched constraints [1, 2, 3, 4, 5]

/-- Stable insertion of a placed session into a start-time-sorted day list
(ties keep the earlier-inserted element first, as a stable sort does). -/
def insertPlaced (x : Placed) : List Placed → List Placed
  | [] => [x]
  | y :: ys => if x.start_time < y.start_time then x :: y :: ys else y :: insertPlaced x ys

/-- Left-to-right insertion pass (stable). -/
def insertAllPlaced (acc : List Placed) : List Placed → List Placed
  | [] => acc
  | x :: xs => insertAllPlaced (insertPlaced x acc) xs

/-- The `daySchedule.sessions.sort(...)` call: a stable sort by start time. -/
def sortPlacedByStart (l : List Placed) : List Placed := insertAllPlaced [] l

/-- `placeSession(schedule, session, placement)`: pushes the flattened record
into the placement's day bucket, re-sorts by start time and accumulates
`duration/60` hours.  `calculateDuration` on the placement's times throws if
either is `undefined` (the preferred-slot branch copies raw session fields). -/
def placeSession (sched : List DayBucket) (session : Session) (p : Placement) :
    Except String (List DayBucket) := do
  let i ← dayIndex sched p.dayOfWeek
  match p.startTime, p.endTime with
  | some st, some en =>
      let bucket := sched.getD i ⟨[], 0⟩
      let dur := en - st
      let placed : Placed := ⟨session, st, en, dur, p.isAlternative, p.isDifferentDay⟩
      .ok (sched.set i ⟨sortPlacedByStart (bucket.sessions ++ [placed]),
        bucket.totalHours + (dur : Rat) / 60⟩)
  | _, _ => .error "TypeError: cannot read split of undefined"

/-- The fixed reason string of an unplaceable-session conflict. -/
def conflictReason : String := "No available time slots found"

/-- The fixed suggestion strings of an unplaceable-session conflict. -/
def conflictSuggestions : List String :=
  ["Consider adjusting session timing", "Check for conflicting constraints",
   "Review other sessions on this day"]

/-- The placement loop of `generateTimetable`: place each session in order,
recording a conflict on failure and continuing. -/
def placeAll (constraints : List Constraint) :
    List Session → List DayBucket × List Conflict →
    Except String (List DayBucket × List Conflict)
  | [], acc => .ok acc
  | s :: rest, (sched, conflicts) => do
      let pl ← findBestPlacement s sched constraints
      match pl with
      | some p => do
          let sched2 ← placeSession sched s p
          placeAll constraints rest (sched2, conflicts)
      | none =>
          placeAll constraints rest
            (sched, conflicts ++ [⟨s, conflictReason, conflictSuggestions⟩])

/-- `new Map(courses.map(c => [c.id, c])).get(cid)`: the last course with a
given id wins, as `Map` insertion overwrites. -/
def courseMapGet (courses : List Course) (cid : Nat) : Option Course :=
  courses.foldl (fun acc c => if c.id == cid then some c else acc) none

/-- `typeOrder[a.type] || 5`: the rigidity rank of a session type; an absent
or unknown type falls through to 5. -/
def typeOrderOf : Option String → Int
  | some t =>
      if t == "lab" then 1
      else if t == "tutorial" then 2
      else if t == "lecture" then 3
      else if t == "seminar" then 4
      else 5
  | none => 5

/-- The sort comparator of `prioritizeSessions`: course priority, then type
rank, then duration descending.  Dereferencing `.priority` of an unresolved
course, or parsing a missing time in the duration tie-break, throws. -/
def sessionCompare (courses : List Course) (a b : Session) : Except String Int := do
  let ca ← match courseMapGet courses a.course_id with
    | some c => Except.ok c
    | none => Except.error "TypeError: cannot read priority of undefined"
  let cb ← match courseMapGet courses b.course_id with
    | some c => Except.ok c
    | none => Except.error "TypeError: cannot read priority of undefined"
  if ca.priority ≠ cb.priority then
    return ca.priority - cb.priority
  else
    let ta := typeOrderOf a.type
    let tb := typeOrderOf b.type
    if ta ≠ tb then
      return ta - tb
    else do
      let da ← calculateDuration a.start_time a.end_time
      let db ← calculateDuration b.start_time b.end_time
      return db - da

/-- Stable insertion with the throwing comparator: the new element goes
before the first strictly-greater prefix element, after equal ones. -/
def insertSessionE (courses : List Course) (x : Session) :
    List Session → Except String (List Session)
  | [] => .ok [x]
  | y :: ys => do
      let c ← sessionCompare courses x y
      if c < 0 then
        .ok (x :: y :: ys)
      else do
        let zs ← insertSessionE courses x ys
        .ok (y :: zs)

/-- Left-to-right stable insertion pass in `Except`. -/
def insertAllSessionsE (courses : List Course) (acc : List Session) :
    List Session → Except String (List Session)
  | [] => .ok acc
  | s :: rest => do
      let acc2 ← insertSessionE courses s acc
      insertAllSessionsE courses acc2 rest

/-- `prioritizeSessions(sessions, courses)`: the stable sort by the comparator
above; with at most one element the comparator never runs. -/
def prioritizeSessions (sessions : List Session) (courses : List Course) :
    Except String (List Session) :=
  if sessions.length ≤ 1 then .ok sessions
  else insertAllSessionsE courses [] sessions

/-- `findGaps(sessions)`: minutes between consecutive list entries. -/
def findGaps : List Placed → List Int
  | a :: b :: rest => (b.start_time - a.end_time) :: findGaps (b :: rest)
  | _ => []

/-- `Math.max(...dailyHours)` over the (always 7, hence nonempty) buckets. -/
def jsMax : List Rat → Rat
  | [] => 0
  | x :: xs => xs.foldl max x

/-- `Math.min(...dailyHours)` over the (always 7, hence nonempty) buckets. -/
def jsMin : List Rat → Rat
  | [] => 0
  | x :: xs => xs.foldl min x

/-- `parseInt(session.start_time.split(':')[0])`: the hour of a placed time. -/
def startHourOf (p : Placed) : Int := p.start_time / 60

/-- `calculateScore(schedule, conflicts, constraints)` as the source computes
it: a running score mutated by each rule, clamped at the end.  The
`constraints` parameter is accepted and unused, as in the source. -/
def calculateScore (sched : List DayBucket) (conflicts : List Conflict)
    (_constraints : List Constraint) : Rat :=
  let score1 : Rat := 100 - (conflicts.length : Rat) * 20
  let dailyHours := sched.map (·.totalHours)
  let score2 := score1 - (jsMax dailyHours - jsMin dailyHours) * 5
  let score3 := sched.foldl (fun sc day =>
    if 1 < day.sessions.length then
      (findGaps day.sessions).foldl (fun sc2 gap =>
        let sc3 := if 120 < gap then sc2 - 5 else sc2
        if 180 < gap then sc3 - 10 else sc3) sc
    else sc) score2
  let score4 := sched.foldl (fun sc day =>
    day.sessions.foldl (fun sc2 s =>
      if 9 ≤ startHourOf s ∧ startHourOf s ≤ 17 then sc2 + 2 else sc2) sc) score3
  max 0 (min 100 score4)

/-- `generateTimetable` for one user's `(courses, sessions, constraints)`
snapshot: the empty-input shortcut, then prioritize, place, score. -/
def generateTimetable (courses : List Course) (sessions : List Session)
    (constraints : List Constraint) : Except String GenerationResult :=
  if sessions.length = 0 then
    .ok ⟨createEmptySchedule, [], 0⟩
  else do
    let sorted ← prioritizeSessions sessions courses
    let (sched, conflicts) ← placeAll constraints sorted (createEmptySchedule, [])
    .ok ⟨sched, conflicts, calculateScore sched conflicts constraints⟩

/-- `localOptimization(schedule, constraints)`: a deep copy with each day's
sessions re-sorted by start time. -/
def localOptimization (sched : List DayBucket) : List DayBucket :=
  sched.map fun b => ⟨sortPlacedByStart b.sessions, b.totalHours⟩

/-- `optimizeTimetable(userId, currentTimetable)`: re-sorts each day and
re-scores with an empty conflict list, keeping the rest of the result. -/
def optimizeTimetable (constraints : List Constraint)
    (current : GenerationResult) : GenerationResult :=
  let optimized := localOptimization current.schedule
  ⟨optimized, current.conflicts, calculateScore optimized [] constraints⟩

/-! ## Property-side definitions

Checkers for the invariant properties, and — for the two refinement claims
(the score formula and the prioritizer order) — a second set of definitions
written from the specification's words, to be compared with the embedded
source functions above. -/

/-- No two entries of a day's placement list overlap under the half-open
test (every unordered pair is checked through `timesOverlap`). -/
def pairwiseNoOverlap : List Placed → Bool
  | [] => true
  | x :: xs =>
      (xs.all fun y => !(timesOverlap (some x.start_time) (some x.end_time)
        (some y.start_time) (some y.end_time))) && pairwiseNoOverlap xs

/-- Every day bucket of a schedule satisfies `pairwiseNoOverlap`. -/
def noOverlapSchedule (sched : List DayBucket) : Bool :=
  sched.all fun b => pairwiseNoOverlap b.sessions

/-- The multiset of input sessions currently placed somewhere in a schedule
(each placement carries its originating session record). -/
def placedSessionsOf (sched : List DayBucket) : List Session :=
  (sched.flatMap fun b => b.sessions).map fun p => p.session

/-- Spec §4.5: the per-gap penalty — 5 if the gap exceeds 120 minutes, plus
an additional 10 if it exceeds 180 (both apply to very large gaps). -/
def gapPenaltyOfGap (g : Int) : Rat :=
  (if 120 < g then 5 else 0) + (if 180 < g then 10 else 0)

/-- Spec §4.5: total gap penalty of one day — counted only for days with at
least 2 sessions, over each consecutive gap. -/
def dayGapPenalty (b : DayBucket) : Rat :=
  if 2 ≤ b.sessions.length then ((findGaps b.sessions).map gapPenaltyOfGap).sum else 0

/-- Spec §4.5: the number of placed sessions of a day whose start hour lies
in [9, 17]. -/
def daytimeCount (b : DayBucket) : Nat :=
  b.sessions.countP fun s => decide (9 ≤ startHourOf s ∧ startHourOf s ≤ 17)

/-- The claimed closed-form score: 100, minus 20 per conflict, minus 5 times
the daily-hours imbalance over all days of the schedule (empty days hold 0
hours), minus the gap penalties, plus 2 per daytime session, clamped to
[0, 100]. -/
def calculateScoreSpec (sched : List DayBucket) (conflicts : List Conflict) : Rat :=
  let dailyHours := sched.map (·.totalHours)
  max 0 (min 100 (100 - 20 * (conflicts.length : Rat)
    - 5 * (jsMax dailyHours - jsMin dailyHours)
    - (sched.map dayGapPenalty).sum
    + 2 * ((sched.map daytimeCount).sum : Rat)))

/-- Spec §4.2: the session-type rigidity rank — lab(1) < tutorial(2) <
lecture(3) < seminar(4) < other(5). -/
def specTypeRank : Option String → Int
  | some t =>
      if t == "lab" then 1
      else if t == "tutorial" then 2
      else if t == "lecture" then 3
      else if t == "seminar" then 4
      else 5
  | none => 5

/-- Spec §4.2: a session's course priority (the hypotheses of the ordering
claim make every lookup resolve, so the default is never consulted). -/
def specPriorityOf (courses : List Course) (s : Session) : Int :=
  match courseMapGet courses s.course_id with
  | some c => c.priority
  | none => 0

/-- Spec §4.2: a session's duration in minutes (the ordering claim's
hypotheses make both times present, so the default is never consulted). -/
def specDurationOf (s : Session) : Int :=
  match s.start_time, s.end_time with
  | some a, some b => b - a
  | _, _ => 0

/-- Spec §4.2: `a` strictly precedes `b` — course priority ascending, then
type rank ascending, then duration descending; anything else is a tie. -/
def specBefore (courses : List Course) (a b : Session) : Bool :=
  specPriorityOf courses a < specPriorityOf courses b ||
  (specPriorityOf courses a == specPriorityOf courses b &&
    (specTypeRank a.type < specTypeRank b.type ||
     (specTypeRank a.type == specTypeRank b.type &&
      specDurationOf b < specDurationOf a)))

/-- Stable insertion by `specBefore`: the new element goes after every
element it does not strictly precede, so ties keep input order. -/
def specInsert (courses : List Course) (x : Session) : List Session → List Session
  | [] => [x]
  | y :: ys => if specBefore courses x y then x :: y :: ys else y :: specInsert courses x ys

/-- Spec §4.2: the stable sort of the input by (priority, type rank,
duration descending), ties preserving original input order. -/
def specStableSort (courses : List Course) (sessions : List Session) : List Session :=
  sessions.foldl (fun acc s => specInsert courses s acc) []

/-- The ordering claim's precondition on one session: its `course_id`
resolves and both times are present, so the comparator is total on it. -/
def comparatorSafe (courses : List Course) (s : Session) : Prop :=
  (courseMapGet courses s.course_id).isSome ∧ s.start_time.isSome ∧ s.end_time.isSome

instance (courses : List Course) (s : Session) : Decidable (comparatorSafe courses s) :=
  inferInstanceAs (Decidable ((courseMapGet courses s.course_id).isSome ∧
    s.start_time.isSome ∧ s.end_time.isSome))

/-! ### Concrete fixtures used by witnesses and counterexamples -/

/-- A priority-1 course with id 1. -/
def sampleCourse : Course := ⟨1, 1⟩

/-- A lecture of course 1 requesting Monday 09:00–10:00. -/
def lectureMon9 : Session := ⟨1, 1, some "lecture", some 1, some 540, some 600⟩

/-- A second lecture of course 1 also requesting Monday 09:00–10:00. -/
def lectureMon9b : Session := ⟨2, 1, some "lecture", some 1, some 540, some 600⟩

/-- An all-day, every-day `unavailable` constraint (all nullable fields null). -/
def allDayUnavailable : Constraint := ⟨"unavailable", none, none, none⟩

/-- The default (empty) day bucket, used with `List.getD`. -/
def emptyBucket : DayBucket := ⟨[], 0⟩

/-! ## Helper lemmas -/

theorem jsLtTime_none_left (b : Option Int) : jsLtTime none b = false := by
  cases b <;> rfl

theorem jsLtTime_none_right (a : Option Int) : jsLtTime a none = false := by
  cases a <;> rfl

theorem jsGtTime_none_left (b : Option Int) : jsGtTime none b = false := by
  cases b <;> rfl

theorem jsGtTime_eq_jsLtTime (a b : Option Int) : jsGtTime a b = jsLtTime b a := by
  cases a <;> cases b <;> rfl

theorem getD_replicate_self (n i : Nat) {α : Type} (x : α) :
    (List.replicate n x).getD i x = x := by
  induction n generalizing i with
  | zero => cases i <;> rfl
  | succ m ih => cases i with
    | zero => rfl
    | succ j => simp [List.replicate, ih j]

/-! ## C7 — the candidate slot space -/

/-- C7: the alternative-slot search scans exactly the 25 half-hour-aligned
start times 08:00 (480) through 20:00 (1200), in ascending order, and a
candidate is discarded exactly when its end would fall at or after 21:00
(minute 1260), `addMinutes` returning null there. -/
theorem candidate_slot_space :
    candidateSlots = [480, 510, 540, 570, 600, 630, 660, 690, 720, 750, 780,
      810, 840, 870, 900, 930, 960, 990, 1020, 1050, 1080, 1110, 1140, 1170, 1200] ∧
    candidateSlots.Chain' (· < ·) ∧
    ∀ t d : Int, addMinutes t d = none ↔ 1260 ≤ t + d := by
  have hc : candidateSlots = [480, 510, 540, 570, 600, 630, 660, 690, 720, 750, 780,
      810, 840, 870, 900, 930, 960, 990, 1020, 1050, 1080, 1110, 1140, 1170, 1200] := by
    decide
  refine ⟨hc, ?_, fun t d => ?_⟩
  · rw [hc]
    norm_num [List.chain'_cons]
  · by_cases h : 1260 ≤ t + d <;> simp [addMinutes, h]

/-! ## C10 — the empty schedule scores 100 -/

/-- C10: the scorer gives the all-empty schedule (with no conflicts) 100;
`generateTimetable` on empty input hard-codes score 0, and `optimizeTimetable`
re-scores that same empty result as 100. -/
theorem empty_schedule_scores_100 :
    calculateScore createEmptySchedule [] [] = 100 ∧
    (generateTimetable [] [] []).map (fun r => r.score) = .ok 0 ∧
    (generateTimetable [] [] []).map (fun r => (optimizeTimetable [] r).score) = .ok 100 := by
  have h100 : calculateScore createEmptySchedule [] [] = 100 := by
    norm_num [calculateScore, createEmptySchedule, jsMax, jsMin, List.replicate, findGaps]
  have hopt : localOptimization createEmptySchedule = createEmptySchedule := rfl
  refine ⟨h100, rfl, ?_⟩
  show Except.ok (optimizeTimetable [] ⟨createEmptySchedule, [], 0⟩).score = Except.ok 100
  simp [optimizeTimetable, hopt, h100]

/-! ## C3 — scenario B lands at 08:00, not 10:00 -/

/-- C3 counterexample: with two sessions both requesting Monday 09:00–10:00,
the relocated second session is nowhere placed with start 10:00 (600). -/
theorem scenarioB_counterexample :
    (generateTimetable [sampleCourse] [lectureMon9, lectureMon9b] []).map
      (fun r => (r.schedule.flatMap fun b => b.sessions).any fun p =>
        p.session.id == 2 && p.start_time == 600) = .ok false := rfl

/-- C3 amended: the first session is placed as requested (no flags); the
second is relocated by the same-day alternative search, whose scan starts at
08:00, to the earliest feasible equal-duration slot 08:00–09:00 (480–540)
with `isAlternative = true`; nothing is ever placed at 10:00–11:00. -/
theorem scenarioB_amended :
    (generateTimetable [sampleCourse] [lectureMon9, lectureMon9b] []).map
      (fun r => (r.conflicts.length, r.schedule.map fun b => b.sessions.map fun p =>
        (p.session.id, p.start_time, p.end_time, p.isAlternative, p.isDifferentDay))) =
      .ok (0, [[], [(2, 480, 540, true, false), (1, 540, 600, false, false)],
        [], [], [], [], []]) := rfl

/-! ## C4 — all-day unavailable constraints are silently ignored -/

/-- C4: at the failing input — an `unavailable` constraint with null day and
null times (the schema's all-day form) and a session requesting Monday
09:00–10:00 — the feasibility check reports the slot as free (the JS
comparisons against null are all false) and the session is placed on the
fully-blocked day, against the schema comment and §4.3 of the spec. -/
theorem allday_constraint_code_bug :
    isTimeSlotAvailable (some 1) (some 540) (some 600) createEmptySchedule
      [allDayUnavailable] = .ok true ∧
    (generateTimetable [sampleCourse] [lectureMon9] [allDayUnavailable]).map
      (fun r => (r.schedule.getD 1 emptyBucket).sessions.map fun p =>
        (p.session.id, p.start_time, p.end_time)) = .ok [(1, 540, 600)] :=
  ⟨rfl, rfl⟩

/-! ## C8 — malformed sessions make generation throw -/

/-- C8 counterexample: a session missing its `start_time` makes
`generateTimetable` throw (no result, no conflict entry), not skip. -/
theorem malformed_counterexample :
    (generateTimetable [sampleCourse] [⟨1, 1, some "lecture", some 1, none, some 600⟩]
      []).isOk = false := rfl

/-! ## C9 — a dangling course reference only throws when compared -/

/-- C9 counterexample: with a single session whose `course_id` resolves to no
course, the sort comparator never runs, so generation succeeds and even
places the session — it does not throw. -/
theorem dangling_course_counterexample :
    (generateTimetable [] [lectureMon9] []).map
      (fun r => ((placedSessionsOf r.schedule).map fun s => s.id,
        r.conflicts.length)) = .ok ([1], 0) := rfl

/-! ## C5 — the score formula -/

theorem foldl_sub_eq {α : Type} (f : α → Rat) (l : List α) :
    ∀ init : Rat, l.foldl (fun sc a => sc - f a) init = init - (l.map f).sum := by
  induction l with
  | nil => intro init; simp
  | cons x xs ih => intro init; simp [List.foldl_cons, ih, List.sum_cons]; ring

theorem foldl_add_eq {α : Type} (f : α → Rat) (l : List α) :
    ∀ init : Rat, l.foldl (fun sc a => sc + f a) init = init + (l.map f).sum := by
  induction l with
  | nil => intro init; simp
  | cons x xs ih => intro init; simp [List.foldl_cons, ih, List.sum_cons]; ring

theorem gap_fold_fun_eq :
    (fun (sc2 : Rat) (gap : Int) =>
      let sc3 := if 120 < gap then sc2 - 5 else sc2
      if 180 < gap then sc3 - 10 else sc3) =
    fun (sc2 : Rat) (gap : Int) => sc2 - gapPenaltyOfGap gap := by
  funext sc g
  by_cases h1 : (120 : Int) < g
  · by_cases h2 : (180 : Int) < g
    · simp [gapPenaltyOfGap, h1, h2]
      ring
    · simp [gapPenaltyOfGap, h1, h2]
  · by_cases h2 : (180 : Int) < g
    · simp [gapPenaltyOfGap, h1, h2]
    · simp [gapPenaltyOfGap, h1, h2]

theorem day_gap_fold_fun_eq :
    (fun (sc : Rat) (day : DayBucket) =>
      if 1 < day.sessions.length then
        (findGaps day.sessions).foldl (fun sc2 gap =>
          let sc3 := if 120 < gap then sc2 - 5 else sc2
          if 180 < gap then sc3 - 10 else sc3) sc
      else sc) =
    fun (sc : Rat) (day : DayBucket) => sc - dayGapPenalty day := by
  funext sc day
  by_cases h : 1 < day.sessions.length
  · rw [if_pos h, gap_fold_fun_eq, foldl_sub_eq, dayGapPenalty, if_pos (by omega)]
  · rw [if_neg h, dayGapPenalty, if_neg (by omega), sub_zero]

theorem bonus_fold_eq (l : List Placed) :
    ∀ sc : Rat, l.foldl (fun sc2 s =>
      if 9 ≤ startHourOf s ∧ startHourOf s ≤ 17 then sc2 + 2 else sc2) sc =
    sc + 2 * (l.countP fun s => decide (9 ≤ startHourOf s ∧ startHourOf s ≤ 17)) := by
  induction l with
  | nil => intro sc; simp
  | cons x xs ih =>
      intro sc
      by_cases h : 9 ≤ startHourOf x ∧ startHourOf x ≤ 17
      · simp [List.foldl_cons, List.countP_cons, h, ih]
        ring
      · simp [List.foldl_cons, List.countP_cons, h, ih]

theorem day_bonus_fold_fun_eq :
    (fun (sc : Rat) (day : DayBucket) =>
      day.sessions.foldl (fun sc2 s =>
        if 9 ≤ startHourOf s ∧ startHourOf s ≤ 17 then sc2 + 2 else sc2) sc) =
    fun (sc : Rat) (day : DayBucket) => sc + 2 * (daytimeCount day : Rat) := by
  funext sc day
  rw [bonus_fold_eq, daytimeCount]

/-- C5: on any 7-day schedule, the score the source computes by successive
mutation equals the claimed closed-form formula — 100, minus 20 per conflict,
minus 5 times the (max − min) daily-hours imbalance over all 7 days (empty
days hold 0 hours), minus 5 per gap over 120 minutes plus another 10 per gap
over 180 minutes on days with at least 2 sessions, plus 2 per session
starting in hours [9, 17], clamped to [0, 100]. -/
theorem score_formula (sched : List DayBucket) (conflicts : List Conflict)
    (constraints : List Constraint) (_hdays : sched.length = 7) :
    calculateScore sched conflicts constraints = calculateScoreSpec sched conflicts := by
  rw [calculateScore, calculateScoreSpec]
  rw [day_gap_fold_fun_eq, foldl_sub_eq, day_bonus_fold_fun_eq, foldl_add_eq]
  congr 2
  have hsum : ((sched.map fun day => 2 * (daytimeCount day : Rat))).sum =
      2 * ((sched.map daytimeCount).sum : Rat) := by
    rw [List.sum_map_mul_left]
    congr 1
    rw [Nat.cast_list_sum, List.map_map]
    rfl
  rw [hsum]
  ring

/-! ## C6 — the prioritizer computes the stable sort by the spec key -/

theorem specTypeRank_eq_typeOrderOf (t : Option String) :
    specTypeRank t = typeOrderOf t := by
  cases t <;> rfl

theorem specDurationOf_eq (s : Session) (d : Int)
    (h : calculateDuration s.start_time s.end_time = .ok d) : specDurationOf s = d := by
  cases hs : s.start_time with
  | none => rw [hs] at h; exact absurd h (by simp [calculateDuration])
  | some a =>
      cases he : s.end_time with
      | none => rw [hs, he] at h; exact absurd h (by simp [calculateDuration])
      | some b =>
          rw [hs, he] at h
          simp only [calculateDuration, Except.ok.injEq] at h
          simp [specDurationOf, hs, he, h]

theorem sessionCompare_ok (courses : List Course) (a b : Session)
    (ha : comparatorSafe courses a) (hb : comparatorSafe courses b) :
    ∃ v, sessionCompare courses a b = .ok v ∧
      (v < 0 ↔ specBefore courses a b = true) := by
  obtain ⟨hca, hsa, hea⟩ := ha
  obtain ⟨hcb, hsb, heb⟩ := hb
  obtain ⟨ca, hca⟩ := Option.isSome_iff_exists.mp hca
  obtain ⟨cb, hcb⟩ := Option.isSome_iff_exists.mp hcb
  obtain ⟨sa, hsa⟩ := Option.isSome_iff_exists.mp hsa
  obtain ⟨ea, hea⟩ := Option.isSome_iff_exists.mp hea
  obtain ⟨sb, hsb⟩ := Option.isSome_iff_exists.mp hsb
  obtain ⟨eb, heb⟩ := Option.isSome_iff_exists.mp heb
  have hda : calculateDuration a.start_time a.end_time = .ok (ea - sa) := by
    rw [hsa, hea]; rfl
  have hdb : calculateDuration b.start_time b.end_time = .ok (eb - sb) := by
    rw [hsb, heb]; rfl
  have hpa : specPriorityOf courses a = ca.priority := by simp [specPriorityOf, hca]
  have hpb : specPriorityOf courses b = cb.priority := by simp [specPriorityOf, hcb]
  have hwa : specDurationOf a = ea - sa := specDurationOf_eq a _ hda
  have hwb : specDurationOf b = eb - sb := specDurationOf_eq b _ hdb
  by_cases hp : ca.priority = cb.priority
  · by_cases ht : typeOrderOf a.type = typeOrderOf b.type
    · refine ⟨(eb - sb) - (ea - sa), ?_, ?_⟩
      · simp [sessionCompare, hca, hcb, hp, ht, Bind.bind, Except.bind, hda, hdb, pure, Except.pure]
      · simp [specBefore, hpa, hpb, hp, specTypeRank_eq_typeOrderOf, ht, hwa, hwb]
    · refine ⟨typeOrderOf a.type - typeOrderOf b.type, ?_, ?_⟩
      · simp [sessionCompare, hca, hcb, hp, ht, Bind.bind, Except.bind, pure, Except.pure]
      · simp [specBefore, hpa, hpb, hp, specTypeRank_eq_typeOrderOf, ht]
  · refine ⟨ca.priority - cb.priority, ?_, ?_⟩
    · simp [sessionCompare, hca, hcb, hp, Bind.bind, Except.bind, pure, Except.pure]
    · simp [specBefore, hpa, hpb, hp, specTypeRank_eq_typeOrderOf]

theorem mem_specInsert (courses : List Course) (x z : Session) :
    ∀ l, z ∈ specInsert courses x l → z = x ∨ z ∈ l := by
  intro l
  induction l with
  | nil =>
      intro h
      rw [specInsert] at h
      simp at h
      exact Or.inl h
  | cons y ys ih =>
      intro h
      rw [specInsert] at h
      by_cases hb : specBefore courses x y = true
      · rw [if_pos hb] at h
        simp only [List.mem_cons] at h ⊢
        tauto
      · rw [if_neg hb] at h
        simp only [List.mem_cons] at h ⊢
        rcases h with h | h
        · tauto
        · rcases ih h with h2 | h2 <;> tauto

theorem insertSessionE_eq_specInsert (courses : List Course) (x : Session)
    (hx : comparatorSafe courses x) :
    ∀ l, (∀ y ∈ l, comparatorSafe courses y) →
      insertSessionE courses x l = .ok (specInsert courses x l) := by
  intro l
  induction l with
  | nil => intro _; rfl
  | cons y ys ih =>
      intro hl
      obtain ⟨v, hv, hiff⟩ := sessionCompare_ok courses x y hx (hl y (by simp))
      have hys : ∀ z ∈ ys, comparatorSafe courses z := fun z hz => hl z (by simp [hz])
      rw [insertSessionE, hv]
      simp only [Bind.bind, Except.bind]
      by_cases hvlt : v < 0
      · rw [if_pos hvlt, specInsert, if_pos (hiff.mp hvlt)]
      · rw [if_neg hvlt, ih hys, specInsert,
          if_neg (fun hb => hvlt (hiff.mpr hb))]

theorem insertAllSessionsE_eq (courses : List Course) :
    ∀ (l acc : List Session), (∀ y ∈ acc, comparatorSafe courses y) →
      (∀ y ∈ l, comparatorSafe courses y) →
      insertAllSessionsE courses acc l =
        .ok (l.foldl (fun a s => specInsert courses s a) acc) := by
  intro l
  induction l with
  | nil => intro acc _ _; rfl
  | cons s rest ih =>
      intro acc hacc hl
      have hs : comparatorSafe courses s := hl s (by simp)
      have hrest : ∀ y ∈ rest, comparatorSafe courses y := fun y hy => hl y (by simp [hy])
      have hacc2 : ∀ y ∈ specInsert courses s acc, comparatorSafe courses y := by
        intro y hy
        rcases mem_specInsert courses s y acc hy with h | h
        · rw [h]; exact hs
        · exact hacc y h
      rw [insertAllSessionsE, insertSessionE_eq_specInsert courses s hs acc hacc]
      simp only [Bind.bind, Except.bind]
      exact ih (specInsert courses s acc) hacc2 hrest

/-- C6: on sessions whose courses resolve (and whose times are present, the
data model's standing assumption needed for the duration tie-break),
`prioritizeSessions` returns exactly the stable sort of the input by course
priority ascending, then type rank lab(1) < tutorial(2) < lecture(3) <
seminar(4) < other(5), then duration descending, ties in input order. -/
theorem prioritizer_stable_sort (courses : List Course) (sessions : List Session)
    (hsafe : ∀ s ∈ sessions, comparatorSafe courses s) :
    prioritizeSessions sessions courses = .ok (specStableSort courses sessions) := by
  rw [prioritizeSessions]
  by_cases hlen : sessions.length ≤ 1
  · rw [if_pos hlen]
    cases sessions with
    | nil => rfl
    | cons s rest =>
        cases rest with
        | nil => rfl
        | cons t r => simp at hlen
  · rw [if_neg hlen, specStableSort]
    exact insertAllSessionsE_eq courses sessions [] (by simp) hsafe

/-- C6 witness: the ordering theorem applied to two concrete resolvable,
fully-timed sessions. -/
theorem prioritizer_stable_sort_witness :
    (∀ s ∈ [lectureMon9, lectureMon9b], comparatorSafe [sampleCourse] s) ∧
    prioritizeSessions [lectureMon9, lectureMon9b] [sampleCourse] =
      .ok (specStableSort [sampleCourse] [lectureMon9, lectureMon9b]) :=
  ⟨by decide, prioritizer_stable_sort [sampleCourse] [lectureMon9, lectureMon9b] (by decide)⟩

/-- C5 witness: the score identity instantiated on the concrete 7-day empty
schedule. -/
theorem score_formula_witness :
    createEmptySchedule.length = 7 ∧
    calculateScore createEmptySchedule [] [] = calculateScoreSpec createEmptySchedule [] :=
  ⟨rfl, score_formula createEmptySchedule [] [] rfl⟩

/-! ## C2 — conservation of sessions -/

theorem insertPlaced_perm (x : Placed) : ∀ l, (insertPlaced x l).Perm (x :: l) := by
  intro l
  induction l with
  | nil => simp [insertPlaced]
  | cons y ys ih =>
      rw [insertPlaced]
      by_cases h : x.start_time < y.start_time
      · rw [if_pos h]
      · rw [if_neg h]
        exact (ih.cons y).trans (List.Perm.swap x y ys)

theorem insertAllPlaced_perm : ∀ (l acc : List Placed), (insertAllPlaced acc l).Perm (acc ++ l) := by
  intro l
  induction l with
  | nil => intro acc; simp [insertAllPlaced]
  | cons x xs ih =>
      intro acc
      rw [insertAllPlaced]
      refine (ih (insertPlaced x acc)).trans ?_
      refine (((insertPlaced_perm x acc).append_right xs)).trans ?_
      exact List.perm_middle.symm

theorem sortPlacedByStart_perm (l : List Placed) : (sortPlacedByStart l).Perm l := by
  simpa [sortPlacedByStart] using insertAllPlaced_perm l []

theorem dayIndex_lt (sched : List DayBucket) (day : Option Int) (i : Nat)
    (h : dayIndex sched day = .ok i) : i < sched.length := by
  cases day with
  | none => exact absurd h (by simp [dayIndex])
  | some d =>
      rw [dayIndex] at h
      by_cases hc : 0 ≤ d ∧ d.toNat < sched.length
      · rw [if_pos hc] at h
        simp only [Except.ok.injEq] at h
        rw [← h]
        exact hc.2
      · rw [if_neg hc] at h
        simp at h

theorem flatMap_set_perm (p : Placed) :
    ∀ (sched : List DayBucket) (i : Nat) (nb : DayBucket), i < sched.length →
      nb.sessions.Perm ((sched.getD i ⟨[], 0⟩).sessions ++ [p]) →
      ((sched.set i nb).flatMap fun b => b.sessions).Perm
        ((sched.flatMap fun b => b.sessions) ++ [p]) := by
  intro sched
  induction sched with
  | nil => intro i nb h _; simp at h
  | cons b rest ih =>
      intro i nb hi hperm
      cases i with
      | zero =>
          rw [List.set_cons_zero, List.flatMap_cons, List.flatMap_cons]
          rw [List.getD_cons_zero] at hperm
          refine (hperm.append_right _).trans ?_
          rw [List.append_assoc, List.append_assoc]
          exact List.Perm.append_left _ List.perm_append_comm
      | succ j =>
          rw [List.set_cons_succ, List.flatMap_cons, List.flatMap_cons]
          rw [List.getD_cons_succ] at hperm
          have hj : j < rest.length := by
            simp only [List.length_cons] at hi
            omega
          refine ((List.Perm.refl b.sessions).append (ih j nb hj hperm)).trans ?_
          rw [← List.append_assoc]

theorem placeSession_perm (sched : List DayBucket) (s : Session) (p : Placement)
    (sched2 : List DayBucket) (h : placeSession sched s p = .ok sched2) :
    (placedSessionsOf sched2).Perm (placedSessionsOf sched ++ [s]) := by
  rw [placeSession] at h
  cases hdi : dayIndex sched p.dayOfWeek with
  | error e => rw [hdi] at h; simp [Bind.bind, Except.bind] at h
  | ok i =>
      rw [hdi] at h
      simp only [Bind.bind, Except.bind] at h
      cases hst : p.startTime with
      | none => rw [hst] at h; simp at h
      | some st =>
          cases hen : p.endTime with
          | none => rw [hst, hen] at h; simp at h
          | some en =>
              rw [hst, hen] at h
              simp only [Except.ok.injEq] at h
              subst h
              have hi := dayIndex_lt sched p.dayOfWeek i hdi
              have hsp := sortPlacedByStart_perm ((sched.getD i ⟨[], 0⟩).sessions ++
                [⟨s, st, en, en - st, p.isAlternative, p.isDifferentDay⟩])
              have hfm := flatMap_set_perm
                ⟨s, st, en, en - st, p.isAlternative, p.isDifferentDay⟩ sched i
                ⟨sortPlacedByStart ((sched.getD i ⟨[], 0⟩).sessions ++
                  [⟨s, st, en, en - st, p.isAlternative, p.isDifferentDay⟩]),
                  (sched.getD i ⟨[], 0⟩).totalHours + ((en - st : Int) : Rat) / 60⟩ hi hsp
              rw [placedSessionsOf, placedSessionsOf]
              refine (hfm.map fun q => q.session).trans ?_
              rw [List.map_append]
              simp

theorem placeAll_perm (cs : List Constraint) :
    ∀ (rest : List Session) (sched : List DayBucket) (conflicts : List Conflict)
      (out : List DayBucket × List Conflict),
      placeAll cs rest (sched, conflicts) = .ok out →
      (placedSessionsOf out.1 ++ out.2.map (fun c => c.session)).Perm
        ((placedSessionsOf sched ++ conflicts.map fun c => c.session) ++ rest) := by
  intro rest
  induction rest with
  | nil =>
      intro sched conflicts out h
      rw [placeAll] at h
      simp only [Except.ok.injEq] at h
      subst h
      simp
  | cons s rest ih =>
      intro sched conflicts out h
      rw [placeAll] at h
      cases hf : findBestPlacement s sched cs with
      | error e => rw [hf] at h; simp [Bind.bind, Except.bind] at h
      | ok pl =>
          rw [hf] at h
          simp only [Bind.bind, Except.bind] at h
          cases pl with
          | none =>
              refine (ih sched (conflicts ++ [⟨s, conflictReason, conflictSuggestions⟩]) out h).trans ?_
              simp only [List.map_append, List.map_cons, List.map_nil, List.append_assoc,
                List.cons_append, List.nil_append]
              exact List.Perm.refl _
          | some p =>
              have h2 : (do
                  let sched2 ← placeSession sched s p
                  placeAll cs rest (sched2, conflicts)) = Except.ok out := h
              cases hps : placeSession sched s p with
              | error e =>
                  rw [hps] at h2
                  simp [Bind.bind, Except.bind] at h2
              | ok sched9 =>
                  rw [hps] at h2
                  simp only [Bind.bind, Except.bind] at h2
                  refine (ih sched9 conflicts out h2).trans ?_
                  have h3 := placeSession_perm sched s p sched9 hps
                  refine (((h3.append_right _).append_right rest)).trans ?_
                  simp only [List.append_assoc, List.cons_append, List.nil_append]
                  exact List.Perm.append_left _ List.perm_middle.symm

theorem insertSessionE_perm (courses : List Course) (x : Session) :
    ∀ l l', insertSessionE courses x l = .ok l' → l'.Perm (x :: l) := by
  intro l
  induction l with
  | nil =>
      intro l' h
      rw [insertSessionE] at h
      simp only [Except.ok.injEq] at h
      subst h
      exact List.Perm.refl _
  | cons y ys ih =>
      intro l' h
      rw [insertSessionE] at h
      cases hc : sessionCompare courses x y with
      | error e => rw [hc] at h; simp [Bind.bind, Except.bind] at h
      | ok v =>
          rw [hc] at h
          simp only [Bind.bind, Except.bind] at h
          by_cases hv : v < 0
          · rw [if_pos hv] at h
            simp only [Except.ok.injEq] at h
            subst h
            exact List.Perm.refl _
          · rw [if_neg hv] at h
            cases hrec : insertSessionE courses x ys with
            | error e => rw [hrec] at h; simp [Bind.bind, Except.bind] at h
            | ok zs =>
                rw [hrec] at h
                simp only [Bind.bind, Except.bind, Except.ok.injEq] at h
                subst h
                exact (((ih zs hrec).cons y)).trans (List.Perm.swap x y ys)

theorem insertAllSessionsE_perm (courses : List Course) :
    ∀ (l acc res : List Session), insertAllSessionsE courses acc l = .ok res →
      res.Perm (acc ++ l) := by
  intro l
  induction l with
  | nil =>
      intro acc res h
      rw [insertAllSessionsE] at h
      simp only [Except.ok.injEq] at h
      subst h
      simp
  | cons s rest ih =>
      intro acc res h
      rw [insertAllSessionsE] at h
      cases hins : insertSessionE courses s acc with
      | error e => rw [hins] at h; simp [Bind.bind, Except.bind] at h
      | ok acc2 =>
          rw [hins] at h
          simp only [Bind.bind, Except.bind] at h
          refine (ih acc2 res h).trans ?_
          refine ((insertSessionE_perm courses s acc acc2 hins).append_right rest).trans ?_
          exact List.perm_middle.symm

theorem prioritizeSessions_perm (courses : List Course) (sessions res : List Session)
    (h : prioritizeSessions sessions courses = .ok res) : res.Perm sessions := by
  rw [prioritizeSessions] at h
  by_cases hl : sessions.length ≤ 1
  · rw [if_pos hl] at h
    simp only [Except.ok.injEq] at h
    subst h
    exact List.Perm.refl _
  · rw [if_neg hl] at h
    simpa using insertAllSessionsE_perm courses sessions [] res h

/-- C2: whenever `generateTimetable` returns a result (does not throw), the
multiset of sessions found across all day placement lists together with the
sessions of the conflict list is exactly the input session multiset — each
input session lands in exactly one of the two, never both, never neither. -/
theorem conservation (courses : List Course) (sessions : List Session)
    (constraints : List Constraint) (r : GenerationResult)
    (h : generateTimetable courses sessions constraints = .ok r) :
    (placedSessionsOf r.schedule ++ r.conflicts.map fun c => c.session).Perm sessions := by
  rw [generateTimetable] at h
  by_cases hlen : sessions.length = 0
  · rw [if_pos hlen] at h
    simp only [Except.ok.injEq] at h
    subst h
    rw [List.length_eq_zero.mp hlen]
    exact List.Perm.refl _
  · rw [if_neg hlen] at h
    cases hp : prioritizeSessions sessions courses with
    | error e => rw [hp] at h; simp [Bind.bind, Except.bind] at h
    | ok sorted =>
        rw [hp] at h
        simp only [Bind.bind, Except.bind] at h
        cases hpa : placeAll constraints sorted (createEmptySchedule, []) with
        | error e => rw [hpa] at h; simp at h
        | ok out =>
            rw [hpa] at h
            obtain ⟨sched, conflicts⟩ := out
            simp only [Except.ok.injEq] at h
            subst h
            have h1 := placeAll_perm constraints sorted createEmptySchedule [] (sched, conflicts) hpa
            simp only [placedSessionsOf, createEmptySchedule] at h1
            simp at h1
            exact h1.trans (prioritizeSessions_perm courses sessions sorted hp)

/-- C2 witness: conservation read off a concrete successful generation. -/
theorem conservation_witness :
    ∃ r, generateTimetable [sampleCourse] [lectureMon9] [] = .ok r ∧
      (placedSessionsOf r.schedule ++ r.conflicts.map fun c => c.session).Perm [lectureMon9] :=
  ⟨_, rfl, conservation [sampleCourse] [lectureMon9] [] _ rfl⟩

/-! ## C1 — the no-overlap invariant -/

theorem timesOverlap_swap (a b : Placed) :
    timesOverlap (some a.start_time) (some a.end_time) (some b.start_time) (some b.end_time) =
    timesOverlap (some b.start_time) (some b.end_time) (some a.start_time) (some a.end_time) := by
  simp only [timesOverlap, jsLtTime, jsGtTime]
  exact Bool.and_comm _ _

theorem pairwiseNoOverlap_iff (l : List Placed) :
    pairwiseNoOverlap l = true ↔ l.Pairwise (fun a b =>
      timesOverlap (some a.start_time) (some a.end_time)
        (some b.start_time) (some b.end_time) = false) := by
  induction l with
  | nil => simp [pairwiseNoOverlap]
  | cons x xs ih =>
      rw [pairwiseNoOverlap]
      simp [List.pairwise_cons, ih, List.all_eq_true]

theorem isTimeSlotAvailable_ok_true (day st en : Option Int) (sched : List DayBucket)
    (cs : List Constraint) (i : Nat) (hdi : dayIndex sched day = .ok i)
    (h : isTimeSlotAvailable day st en sched cs = .ok true) :
    ∀ ex ∈ (sched.getD i ⟨[], 0⟩).sessions,
      timesOverlap st en (some ex.start_time) (some ex.end_time) = false := by
  intro ex hex
  by_contra hov
  have hov2 : timesOverlap st en (some ex.start_time) (some ex.end_time) = true := by
    revert hov
    cases timesOverlap st en (some ex.start_time) (some ex.end_time) <;> simp
  have hany : ((sched.getD i ⟨[], 0⟩).sessions.any fun q =>
      timesOverlap st en (some q.start_time) (some q.end_time)) = true :=
    List.any_eq_true.mpr ⟨ex, hex, hov2⟩
  rw [isTimeSlotAvailable, hdi] at h
  have h2 : (if ((sched.getD i ⟨[], 0⟩).sessions.any fun q =>
        timesOverlap st en (some q.start_time) (some q.end_time)) = true then
        (Except.ok false : Except String Bool)
      else if (cs.any fun c => (c.day_of_week == none || c.day_of_week == day) &&
          c.type == "unavailable" &&
          timesOverlap st en c.start_time c.end_time) = true then
        Except.ok false
      else Except.ok true) = Except.ok true := h
  rw [if_pos hany] at h2
  exact absurd h2 (by simp)

theorem scanSlots_mem (day : Option Int) (dur : Int) (sched : List DayBucket)
    (cs : List Constraint) :
    ∀ (ts : List Int) (acc res : List (Int × Int)),
      scanSlots day dur sched cs acc ts = .ok res →
      ∀ q ∈ res, q ∈ acc ∨ isTimeSlotAvailable day (some q.1) (some q.2) sched cs = .ok true := by
  intro ts
  induction ts with
  | nil =>
      intro acc res h q hq
      rw [scanSlots] at h
      simp only [Except.ok.injEq] at h
      subst h
      exact Or.inl hq
  | cons t ts ih =>
      intro acc res h q hq
      rw [scanSlots] at h
      cases ham : addMinutes t dur with
      | none =>
          rw [ham] at h
          exact ih acc res h q hq
      | some e =>
          rw [ham] at h
          have h2 : (do
              let av ← isTimeSlotAvailable day (some t) (some e) sched cs
              scanSlots day dur sched cs (if av then acc ++ [(t, e)] else acc) ts) =
              Except.ok res := h
          cases hav : isTimeSlotAvailable day (some t) (some e) sched cs with
          | error er =>
              rw [hav] at h2
              simp [Bind.bind, Except.bind] at h2
          | ok av =>
              rw [hav] at h2
              simp only [Bind.bind, Except.bind] at h2
              rcases ih _ res h2 q hq with hin | hout
              · cases av with
                | false =>
                    rw [if_neg Bool.false_ne_true] at hin
                    exact Or.inl hin
                | true =>
                    rw [if_pos rfl] at hin
                    rcases List.mem_append.mp hin with hacc | hsing
                    · exact Or.inl hacc
                    · right
                      have : q = (t, e) := by simpa using hsing
                      rw [this]
                      exact hav
              · exact Or.inr hout

theorem findAlternativeSlots_mem (session : Session) (day : Option Int)
    (sched : List DayBucket) (cs : List Constraint) (alts : List (Int × Int))
    (h : findAlternativeSlots session day sched cs = .ok alts) :
    ∀ q ∈ alts, isTimeSlotAvailable day (some q.1) (some q.2) sched cs = .ok true := by
  rw [findAlternativeSlots] at h
  cases hd : calculateDuration session.start_time session.end_time with
  | error e =>
      rw [hd] at h
      simp [Bind.bind, Except.bind] at h
  | ok dur =>
      rw [hd] at h
      simp only [Bind.bind, Except.bind] at h
      intro q hq
      rcases scanSlots_mem day dur sched cs candidateSlots [] alts h q hq with h2 | h2
      · simp at h2
      · exact h2

theorem crossDaySearch_avail (session : Session) (sched : List DayBucket)
    (cs : List Constraint) :
    ∀ (days : List Int) (p : Placement),
      crossDaySearch session sched cs days = .ok (some p) →
      isTimeSlotAvailable p.dayOfWeek p.startTime p.endTime sched cs = .ok true := by
  intro days
  induction days with
  | nil =>
      intro p h
      rw [crossDaySearch] at h
      simp at h
  | cons d ds ih =>
      intro p h
      rw [crossDaySearch] at h
      by_cases he : (session.day_of_week == some d) = true
      · rw [if_pos he] at h
        exact ih p h
      · rw [if_neg he] at h
        have h2 : (do
            let alts ← findAlternativeSlots session (some d) sched cs
            match alts with
            | (st, en) :: _ =>
                (Except.ok (some ⟨some d, some st, some en, false, true⟩) :
                  Except String (Option Placement))
            | [] => crossDaySearch session sched cs ds) = Except.ok (some p) := h
        cases halts : findAlternativeSlots session (some d) sched cs with
        | error e =>
            rw [halts] at h2
            simp [Bind.bind, Except.bind] at h2
        | ok alts =>
            rw [halts] at h2
            simp only [Bind.bind, Except.bind] at h2
            cases alts with
            | nil => exact ih p h2
            | cons q qs =>
                obtain ⟨st, en⟩ := q
                simp only [Except.ok.injEq, Option.some.injEq] at h2
                subst h2
                have := findAlternativeSlots_mem session (some d) sched cs
                  ((st, en) :: qs) halts (st, en) (by simp)
                simpa using this

theorem findBestPlacement_avail (session : Session) (sched : List DayBucket)
    (cs : List Constraint) (p : Placement)
    (h : findBestPlacement session sched cs = .ok (some p)) :
    isTimeSlotAvailable p.dayOfWeek p.startTime p.endTime sched cs = .ok true := by
  rw [findBestPlacement] at h
  cases hav : isTimeSlotAvailable session.day_of_week session.start_time
      session.end_time sched cs with
  | error e =>
      rw [hav] at h
      simp [Bind.bind, Except.bind] at h
  | ok avail =>
      rw [hav] at h
      simp only [Bind.bind, Except.bind] at h
      cases avail with
      | true =>
          rw [if_pos rfl] at h
          simp only [pure, Except.pure, Except.ok.injEq, Option.some.injEq] at h
          subst h
          exact hav
      | false =>
          rw [if_neg Bool.false_ne_true] at h
          have h2 : (do
              let alts ← findAlternativeSlots session session.day_of_week sched cs
              match alts with
              | (st, en) :: _ =>
                  (Except.ok (some ⟨session.day_of_week, some st, some en, true, false⟩) :
                    Except String (Option Placement))
              | [] => crossDaySearch session sched cs [1, 2, 3, 4, 5]) =
              Except.ok (some p) := h
          cases halts : findAlternativeSlots session session.day_of_week sched cs with
          | error e =>
              rw [halts] at h2
              simp [Bind.bind, Except.bind] at h2
          | ok alts =>
              rw [halts] at h2
              simp only [Bind.bind, Except.bind] at h2
              cases alts with
              | nil => exact crossDaySearch_avail session sched cs [1, 2, 3, 4, 5] p h2
              | cons q qs =>
                  obtain ⟨st, en⟩ := q
                  simp only [Except.ok.injEq, Option.some.injEq] at h2
                  subst h2
                  have := findAlternativeSlots_mem session session.day_of_week sched cs
                    ((st, en) :: qs) halts (st, en) (by simp)
                  simpa using this

theorem mem_set_cases {α : Type} : ∀ (l : List α) (i : Nat) (a x : α),
    x ∈ l.set i a → x = a ∨ x ∈ l := by
  intro l
  induction l with
  | nil => intro i a x h; simp at h
  | cons b bs ih =>
      intro i a x h
      cases i with
      | zero =>
          rw [List.set_cons_zero] at h
          simp only [List.mem_cons] at h ⊢
          tauto
      | succ j =>
          rw [List.set_cons_succ] at h
          simp only [List.mem_cons] at h ⊢
          rcases h with h | h
          · tauto
          · rcases ih j a x h with h2 | h2 <;> tauto

theorem placeSession_noOverlap (sched : List DayBucket) (s : Session) (p : Placement)
    (cs : List Constraint) (sched2 : List DayBucket)
    (hps : placeSession sched s p = .ok sched2)
    (hav : isTimeSlotAvailable p.dayOfWeek p.startTime p.endTime sched cs = .ok true)
    (hinv : noOverlapSchedule sched = true) : noOverlapSchedule sched2 = true := by
  rw [noOverlapSchedule, List.all_eq_true] at hinv
  rw [placeSession] at hps
  cases hdi : dayIndex sched p.dayOfWeek with
  | error e =>
      rw [hdi] at hps
      simp [Bind.bind, Except.bind] at hps
  | ok i =>
      rw [hdi] at hps
      simp only [Bind.bind, Except.bind] at hps
      cases hst : p.startTime with
      | none => rw [hst] at hps; simp at hps
      | some st =>
        cases hen : p.endTime with
        | none => rw [hst, hen] at hps; simp at hps
        | some en =>
          rw [hst, hen] at hps
          simp only [Except.ok.injEq] at hps
          subst hps
          have hi := dayIndex_lt sched p.dayOfWeek i hdi
          have hext : ∀ ex ∈ (sched.getD i ⟨[], 0⟩).sessions,
              timesOverlap (some st) (some en)
                (some ex.start_time) (some ex.end_time) = false := by
            have h0 := isTimeSlotAvailable_ok_true p.dayOfWeek p.startTime p.endTime
              sched cs i hdi hav
            rw [hst, hen] at h0
            exact h0
          rw [noOverlapSchedule, List.all_eq_true]
          intro b hb
          rcases mem_set_cases sched i _ b hb with hb2 | hb2
          · rw [hb2]
            rw [pairwiseNoOverlap_iff]
            have hperm := sortPlacedByStart_perm ((sched.getD i ⟨[], 0⟩).sessions ++
              [⟨s, st, en, en - st, p.isAlternative, p.isDifferentDay⟩])
            rw [List.Perm.pairwise_iff (fun hxy => by rw [timesOverlap_swap]; exact hxy) hperm]
            rw [List.pairwise_append]
            refine ⟨?_, List.pairwise_singleton _ _, ?_⟩
            · have hbm : sched.getD i ⟨[], 0⟩ ∈ sched := by
                rw [List.getD_eq_getElem sched ⟨[], 0⟩ hi]
                exact List.getElem_mem hi
              exact (pairwiseNoOverlap_iff _).mp (hinv _ hbm)
            · intro a ha b2 hb3
              have hb4 : b2 = ⟨s, st, en, en - st, p.isAlternative, p.isDifferentDay⟩ := by
                simpa using hb3
              rw [hb4, timesOverlap_swap]
              exact hext a ha
          · exact hinv b hb2

theorem placeAll_noOverlap (cs : List Constraint) :
    ∀ (rest : List Session) (sched : List DayBucket) (conflicts : List Conflict)
      (out : List DayBucket × List Conflict),
      placeAll cs rest (sched, conflicts) = .ok out →
      noOverlapSchedule sched = true → noOverlapSchedule out.1 = true := by
  intro rest
  induction rest with
  | nil =>
      intro sched conflicts out h hinv
      rw [placeAll] at h
      simp only [Except.ok.injEq] at h
      subst h
      exact hinv
  | cons s rest ih =>
      intro sched conflicts out h hinv
      rw [placeAll] at h
      cases hf : findBestPlacement s sched cs with
      | error e => rw [hf] at h; simp [Bind.bind, Except.bind] at h
      | ok pl =>
          rw [hf] at h
          simp only [Bind.bind, Except.bind] at h
          cases pl with
          | none =>
              exact ih sched _ out h hinv
          | some p =>
              have h2 : (do
                  let sched2 ← placeSession sched s p
                  placeAll cs rest (sched2, conflicts)) = Except.ok out := h
              cases hps : placeSession sched s p with
              | error e =>
                  rw [hps] at h2
                  simp [Bind.bind, Except.bind] at h2
              | ok sched9 =>
                  rw [hps] at h2
                  simp only [Bind.bind, Except.bind] at h2
                  exact ih sched9 conflicts out h2
                    (placeSession_noOverlap sched s p cs sched9 hps
                      (findBestPlacement_avail s sched cs p hf) hinv)

/-- C1: every schedule a successful `generateTimetable` run returns satisfies
the no-overlap invariant — on each of the 7 days, no two placements have
overlapping half-open `[start_time, end_time)` intervals under the
`timesOverlap` test. -/
theorem no_overlap_invariant (courses : List Course) (sessions : List Session)
    (constraints : List Constraint) (r : GenerationResult)
    (h : generateTimetable courses sessions constraints = .ok r) :
    noOverlapSchedule r.schedule = true := by
  rw [generateTimetable] at h
  by_cases hlen : sessions.length = 0
  · rw [if_pos hlen] at h
    simp only [Except.ok.injEq] at h
    subst h
    rfl
  · rw [if_neg hlen] at h
    cases hp : prioritizeSessions sessions courses with
    | error e => rw [hp] at h; simp [Bind.bind, Except.bind] at h
    | ok sorted =>
        rw [hp] at h
        simp only [Bind.bind, Except.bind] at h
        cases hpa : placeAll constraints sorted (createEmptySchedule, []) with
        | error e => rw [hpa] at h; simp at h
        | ok out =>
            rw [hpa] at h
            obtain ⟨sched, conflicts⟩ := out
            simp only [Except.ok.injEq] at h
            subst h
            exact placeAll_noOverlap constraints sorted createEmptySchedule []
              (sched, conflicts) hpa rfl

/-- C1 witness: the invariant read off a concrete successful generation with
two contending sessions. -/
theorem no_overlap_invariant_witness :
    ∃ r, generateTimetable [sampleCourse] [lectureMon9, lectureMon9b] [] = .ok r ∧
      noOverlapSchedule r.schedule = true :=
  ⟨_, rfl, no_overlap_invariant [sampleCourse] [lectureMon9, lectureMon9b] [] _ rfl⟩

/-! ## C8 — generation throws on malformed sessions -/

theorem isTimeSlotAvailable_empty_ok (d : Int) (st en : Option Int)
    (cs : List Constraint) (hd : 0 ≤ d) (hd7 : d.toNat < 7)
    (hmiss : st = none ∨ en = none) :
    isTimeSlotAvailable (some d) st en createEmptySchedule cs = .ok true := by
  have hdi : dayIndex createEmptySchedule (some d) = .ok d.toNat := by
    rw [dayIndex, if_pos]
    exact ⟨hd, by simpa [createEmptySchedule] using hd7⟩
  have hov : ∀ (s2 e2 : Option Int), timesOverlap st en s2 e2 = false := by
    intro s2 e2
    rcases hmiss with h | h
    · rw [h]
      simp [timesOverlap, jsLtTime_none_left]
    · rw [h]
      simp [timesOverlap, jsGtTime_none_left]
  have hanyc : ¬((cs.any fun c =>
      (c.day_of_week == none || c.day_of_week == some d) &&
      (c.type == "unavailable") &&
      timesOverlap st en c.start_time c.end_time) = true) := by
    intro hcontra
    obtain ⟨c, hc, hp⟩ := List.any_eq_true.mp hcontra
    rw [hov c.start_time c.end_time] at hp
    simp at hp
  rw [isTimeSlotAvailable, hdi]
  show (if ((createEmptySchedule.getD d.toNat ⟨[], 0⟩).sessions.any fun ex =>
        timesOverlap st en (some ex.start_time) (some ex.end_time)) = true then
        (Except.ok false : Except String Bool)
      else if (cs.any fun c =>
          (c.day_of_week == none || c.day_of_week == some d) &&
          (c.type == "unavailable") &&
          timesOverlap st en c.start_time c.end_time) = true then
        Except.ok false
      else Except.ok true) = Except.ok true
  rw [createEmptySchedule, getD_replicate_self]
  rw [if_neg (by simp), if_neg hanyc]

theorem malformed_single_err (courses : List Course) (cs : List Constraint)
    (s : Session)
    (hmiss : s.day_of_week = none ∨ s.start_time = none ∨ s.end_time = none) :
    (generateTimetable courses [s] cs).isOk = false := by
  rw [generateTimetable, if_neg (by simp)]
  have hpri : prioritizeSessions [s] courses = .ok [s] := by
    rw [prioritizeSessions, if_pos (by simp)]
  have herr : ∃ e, placeAll cs [s] (createEmptySchedule, []) = .error e := by
    rw [placeAll]
    cases hday : s.day_of_week with
    | none =>
        refine ⟨"TypeError: cannot read sessions of undefined", ?_⟩
        have hav : isTimeSlotAvailable s.day_of_week s.start_time s.end_time
            createEmptySchedule cs = .error "TypeError: cannot read sessions of undefined" := by
          rw [isTimeSlotAvailable, hday]
          rfl
        have hfb : findBestPlacement s createEmptySchedule cs =
            .error "TypeError: cannot read sessions of undefined" := by
          rw [findBestPlacement, hav]
          rfl
        rw [hfb]
        rfl
    | some d =>
        by_cases hvalid : 0 ≤ d ∧ d.toNat < 7
        · have hmiss2 : s.start_time = none ∨ s.end_time = none := by
            rcases hmiss with h | h | h
            · rw [hday] at h
              exact absurd h (by simp)
            · exact Or.inl h
            · exact Or.inr h
          have hav := isTimeSlotAvailable_empty_ok d s.start_time s.end_time cs
            hvalid.1 hvalid.2 hmiss2
          have hfb : findBestPlacement s createEmptySchedule cs =
              .ok (some ⟨s.day_of_week, s.start_time, s.end_time, false, false⟩) := by
            rw [findBestPlacement, hday, hav]
            rfl
          have hplace : ∃ e2, placeSession createEmptySchedule s
              ⟨s.day_of_week, s.start_time, s.end_time, false, false⟩ = .error e2 := by
            have hdi : dayIndex createEmptySchedule s.day_of_week = .ok d.toNat := by
              rw [hday, dayIndex, if_pos]
              exact ⟨hvalid.1, by simpa [createEmptySchedule] using hvalid.2⟩
            refine ⟨"TypeError: cannot read split of undefined", ?_⟩
            rw [placeSession, hdi]
            rcases hmiss2 with h | h
            · rw [h]
              rfl
            · rw [h]
              cases hst2 : s.start_time with
              | none => rfl
              | some a => rfl
          obtain ⟨e2, he2⟩ := hplace
          refine ⟨e2, ?_⟩
          rw [hfb]
          have hstep : (do
              let sched2 ← placeSession createEmptySchedule s
                ⟨s.day_of_week, s.start_time, s.end_time, false, false⟩
              placeAll cs [] (sched2, ([] : List Conflict))) =
              (.error e2 : Except String (List DayBucket × List Conflict)) := by
            rw [he2]
            rfl
          exact hstep
        · refine ⟨"TypeError: cannot read sessions of undefined", ?_⟩
          have hdi : dayIndex createEmptySchedule (some d) =
              .error "TypeError: cannot read sessions of undefined" := by
            rw [dayIndex, if_neg]
            intro hcontra
            exact hvalid ⟨hcontra.1, by simpa [createEmptySchedule] using hcontra.2⟩
          have hav : isTimeSlotAvailable s.day_of_week s.start_time s.end_time
              createEmptySchedule cs = .error "TypeError: cannot read sessions of undefined" := by
            rw [isTimeSlotAvailable, hday, hdi]
            rfl
          have hfb : findBestPlacement s createEmptySchedule cs =
              .error "TypeError: cannot read sessions of undefined" := by
            rw [findBestPlacement, hav]
            rfl
          rw [hfb]
          rfl
  obtain ⟨e, he⟩ := herr
  rw [hpri]
  simp only [Bind.bind, Except.bind]
  rw [he]
  rfl

/-- C8 amended: generation is not total on malformed sessions — a session
missing its `day_of_week`, `start_time` or `end_time` makes
`generateTimetable` throw a `TypeError` (no result and no conflict entry),
while a session missing only its `type` is placed normally (rank 5, other);
no conflict reason "invalid session data" exists in the code. -/
theorem malformed_amended :
    (∀ (courses : List Course) (cs : List Constraint) (s : Session),
        s.day_of_week = none ∨ s.start_time = none ∨ s.end_time = none →
        (generateTimetable courses [s] cs).isOk = false) ∧
    (generateTimetable [sampleCourse] [⟨1, 1, none, some 1, some 540, some 600⟩] []).map
      (fun r => (r.conflicts.length, (placedSessionsOf r.schedule).map fun q => q.id)) =
      .ok (0, [1]) :=
  ⟨malformed_single_err, rfl⟩

/-! ## C9 — dangling course references throw only when compared -/

theorem sessionCompare_err_left (courses : List Course) (x y : Session)
    (h : courseMapGet courses x.course_id = none) :
    sessionCompare courses x y = .error "TypeError: cannot read priority of undefined" := by
  rw [sessionCompare, h]
  rfl

theorem sessionCompare_err_right (courses : List Course) (x y : Session)
    (h : courseMapGet courses y.course_id = none) :
    ∃ e, sessionCompare courses x y = .error e := by
  cases hx : courseMapGet courses x.course_id with
  | none => exact ⟨_, by rw [sessionCompare, hx]; rfl⟩
  | some cx => exact ⟨_, by rw [sessionCompare, hx, h]; rfl⟩

theorem insertSessionE_err_left (courses : List Course) (x : Session)
    (h : courseMapGet courses x.course_id = none) (y : Session) (ys : List Session) :
    ∃ e, insertSessionE courses x (y :: ys) = .error e := by
  refine ⟨"TypeError: cannot read priority of undefined", ?_⟩
  rw [insertSessionE, sessionCompare_err_left courses x y h]
  rfl

theorem insertSessionE_err_head (courses : List Course) (x d : Session)
    (ds : List Session) (h : courseMapGet courses d.course_id = none) :
    ∃ e, insertSessionE courses x (d :: ds) = .error e := by
  obtain ⟨e, he⟩ := sessionCompare_err_right courses x d h
  exact ⟨e, by rw [insertSessionE, he]; rfl⟩

theorem insertAll_err (courses : List Course) :
    ∀ (l acc : List Session),
      (∀ y ∈ acc, (courseMapGet courses y.course_id).isSome) →
      (∃ s ∈ l, courseMapGet courses s.course_id = none) →
      (acc ≠ [] ∨ 2 ≤ l.length) →
      ∃ e, insertAllSessionsE courses acc l = .error e := by
  intro l
  induction l with
  | nil =>
      intro acc _ hdang _
      simp at hdang
  | cons s rest ih =>
      intro acc hacc hdang hcond
      rw [insertAllSessionsE]
      by_cases hs : courseMapGet courses s.course_id = none
      · cases acc with
        | nil =>
            have hrest : rest ≠ [] := by
              rcases hcond with hc | hc
              · exact absurd rfl hc
              · cases rest with
                | nil => simp at hc
                | cons a b => simp
            cases rest with
            | nil => exact absurd rfl hrest
            | cons y ys =>
                obtain ⟨e, he⟩ := insertSessionE_err_head courses y s [] hs
                refine ⟨e, ?_⟩
                show insertAllSessionsE courses [s] (y :: ys) = .error e
                rw [insertAllSessionsE, he]
                rfl
        | cons a as =>
            obtain ⟨e, he⟩ := insertSessionE_err_left courses s hs a as
            refine ⟨e, ?_⟩
            rw [he]
            rfl
      · have hdang2 : ∃ t ∈ rest, courseMapGet courses t.course_id = none := by
          rcases hdang with ⟨t, ht, htd⟩
          rcases List.mem_cons.mp ht with h1 | h1
          · rw [h1] at htd
            exact absurd htd hs
          · exact ⟨t, h1, htd⟩
        cases hins : insertSessionE courses s acc with
        | error e => exact ⟨e, by simp [Bind.bind, Except.bind]⟩
        | ok acc2 =>
            have hperm := insertSessionE_perm courses s acc acc2 hins
            have hacc2 : ∀ y ∈ acc2, (courseMapGet courses y.course_id).isSome := by
              intro y hy
              rcases List.mem_cons.mp (hperm.mem_iff.mp hy) with h1 | h1
              · rw [h1]
                exact Option.isSome_iff_ne_none.mpr hs
              · exact hacc y h1
            have hne : acc2 ≠ [] := by
              intro hnil
              have hlen := hperm.length_eq
              rw [hnil] at hlen
              simp at hlen
            obtain ⟨e, he⟩ := ih acc2 hacc2 hdang2 (Or.inl hne)
            refine ⟨e, ?_⟩
            simp only [Bind.bind, Except.bind]
            exact he

/-- C9 amended: a dangling `course_id` makes generation throw only when the
sort comparator actually compares it — with two or more sessions any
unresolvable course makes `generateTimetable` throw, while with a single
session the comparator never runs and generation succeeds (see the
counterexample); generation is total through prioritization exactly under
resolvable courses or fewer than two sessions. -/
theorem dangling_course_amended (courses : List Course) (sessions : List Session)
    (constraints : List Constraint) (h2 : 2 ≤ sessions.length)
    (hdang : ∃ s ∈ sessions, courseMapGet courses s.course_id = none) :
    (generateTimetable courses sessions constraints).isOk = false := by
  rw [generateTimetable, if_neg (by omega)]
  have hpe : ∃ e, prioritizeSessions sessions courses = .error e := by
    rw [prioritizeSessions, if_neg (by omega)]
    exact insertAll_err courses sessions [] (by simp) hdang (Or.inr h2)
  obtain ⟨e, he⟩ := hpe
  rw [he]
  rfl

/-- C9 witness: two sessions, empty course list — generation throws. -/
theorem dangling_course_amended_witness :
    2 ≤ ([lectureMon9, lectureMon9b] : List Session).length ∧
    (generateTimetable [] [lectureMon9, lectureMon9b] []).isOk = false :=
  ⟨by decide, dangling_course_amended [] [lectureMon9, lectureMon9b] [] (by decide)
    ⟨lectureMon9, by simp, rfl⟩⟩
